import Mathlib

/-!
Shallow embedding of the Groth16 verification engine of this repository
(`src/utils/groth16.rs`) and of the artifact-importer point decoding
(`circom/converter/src/main.rs`).

The curve arithmetic substrate (arkworks' BN254: field elements, the groups
G1/G2 in affine and projective form, scalar multiplication and the bilinear
pairing into the target group GT) is an external trusted library for this
code; it is modelled abstractly: the projective and affine forms of each
group are additive commutative groups related by the additive isomorphisms
`into_affine` / `into_projective`, scalars act on affine G1 points through a
module structure (arkworks' `AffineCurve::mul`, which lands in projective
form, is the scalar action followed by `into_projective`), and the pairing
is an arbitrary function into a commutative monoid `GT`.  None of the
verified properties depend on bilinearity, so no pairing law is assumed.

Rust `Result<(), ()>` is `Except Unit Unit`; a Rust slice-index panic is
modelled by returning `none`, so fallible functions land in `Option`.
-/

namespace Groth16

/-- The curve arithmetic substrate assumed by the engine: the conversions
between projective and affine form of G1 and G2 (mutually inverse additive
isomorphisms, as in arkworks) and the pairing into the target group. -/
structure Curve (G1p G1a G2p G2a GT : Type)
    [AddCommGroup G1p] [AddCommGroup G1a] [AddCommGroup G2p] [AddCommGroup G2a]
    [CommMonoid GT] where
  g1Aff : G1p ≃+ G1a
  g2Aff : G2p ≃+ G2a
  pairing : G1a → G2a → GT

section Engine

variable {G1p G1a G2p G2a GT Fr : Type}
variable [AddCommGroup G1p] [AddCommGroup G1a] [AddCommGroup G2p] [AddCommGroup G2a]
variable [CommMonoid GT] [Semiring Fr] [Module Fr G1a] [DecidableEq GT]

/-- `struct Proof` of `groth16.rs`: the three proof points, in projective form. -/
structure Proof (G1p G2p : Type) where
  a : G1p
  b : G2p
  c : G1p

/-- `struct Vk` of `groth16.rs`: the raw verification key, points in projective
form and the `ic` slice. -/
structure Vk (G1p G2p : Type) where
  alpha_g1 : G1p
  beta_g2 : G2p
  gamma_g2 : G2p
  delta_g2 : G2p
  ic : List G1p

/-- `struct PreparedVk` of `groth16.rs`: affine points, negated gamma/delta,
affine `ic` and the precomputed pairing `e(alpha, beta)`. -/
structure PreparedVk (G1a G2a GT : Type) where
  alpha_g1 : G1a
  beta_g2 : G2a
  gamma_g2_neg : G2a
  delta_g2_neg : G2a
  gamma_abc_g1 : List G1a
  e_alpha_beta : GT

/-- `Vk::prepare` of `groth16.rs`: convert `alpha`, `beta` and every `ic`
element to affine form, negate the affine `gamma` and `delta`, and precompute
`e(alpha_affine, beta_affine)`. -/
def Vk.prepare (c : Curve G1p G1a G2p G2a GT) (vk : Vk G1p G2p) :
    PreparedVk G1a G2a GT :=
  let alpha_affine := c.g1Aff vk.alpha_g1
  let beta_affine := c.g2Aff vk.beta_g2
  { alpha_g1 := alpha_affine
    beta_g2 := beta_affine
    gamma_g2_neg := -(c.g2Aff vk.gamma_g2)
    delta_g2_neg := -(c.g2Aff vk.delta_g2)
    gamma_abc_g1 := vk.ic.map (fun p => c.g1Aff p)
    e_alpha_beta := c.pairing alpha_affine beta_affine }

/-- `aggregate_inputs` of `groth16.rs`.  On a length mismatch the Rust code
returns `prep_vk.gamma_abc_g1[0].into_projective()` (under a comment claiming
to return the identity element); otherwise it starts from
`gamma_abc_g1[0].into_projective()` and folds
`g_ic += ic_point.mul(input)` over `public_inputs.iter().zip(gamma_abc_g1.iter().skip(1))`.
The slice index `gamma_abc_g1[0]` panics when the slice is empty; the panic
is modelled as `none`. -/
def aggregate_inputs (c : Curve G1p G1a G2p G2a GT)
    (prep_vk : PreparedVk G1a G2a GT) (public_inputs : List Fr) : Option G1p :=
  if public_inputs.length + 1 ≠ prep_vk.gamma_abc_g1.length then
    (prep_vk.gamma_abc_g1[0]?).map (fun p => c.g1Aff.symm p)
  else
    (prep_vk.gamma_abc_g1[0]?).map (fun p0 =>
      (public_inputs.zip (prep_vk.gamma_abc_g1.drop 1)).foldl
        (fun g_ic sp => g_ic + c.g1Aff.symm (sp.1 • sp.2))
        (c.g1Aff.symm p0))

/-- `verify_proof_prepared` of `groth16.rs`: aggregate the public inputs,
convert the proof points and the aggregate to affine form, compute the three
pairings, multiply them and compare with the precomputed `e_alpha_beta`;
`Ok(())` on equality, `Err(())` otherwise. -/
def verify_proof_prepared (c : Curve G1p G1a G2p G2a GT)
    (pvk : PreparedVk G1a G2a GT) (proof : Proof G1p G2p)
    (public_inputs : List Fr) : Option (Except Unit Unit) :=
  (aggregate_inputs c pvk public_inputs).map (fun g_ic =>
    let proof_a := c.g1Aff proof.a
    let proof_b := c.g2Aff proof.b
    let proof_c := c.g1Aff proof.c
    let g_ic_affine := c.g1Aff g_ic
    let e_a_b := c.pairing proof_a proof_b
    let e_ic_gamma := c.pairing g_ic_affine pvk.gamma_g2_neg
    let e_c_delta := c.pairing proof_c pvk.delta_g2_neg
    if e_a_b * e_ic_gamma * e_c_delta = pvk.e_alpha_beta then
      Except.ok ()
    else
      Except.error ())

/-- `verify_proof` of `groth16.rs`: prepare the key, then verify with the
prepared key. -/
def verify_proof (c : Curve G1p G1a G2p G2a GT) (vk : Vk G1p G2p)
    (proof : Proof G1p G2p) (public_inputs : List Fr) :
    Option (Except Unit Unit) :=
  let pvk := Vk.prepare c vk
  verify_proof_prepared c pvk proof public_inputs

/-- Right-to-left fold over the same term list
`ic[0], inputs[0]·ic[1], …, inputs[n-1]·ic[n]` used by `aggregate_inputs`.
Modelled from the spec: the reordering check of §8 compares the
implementation's left-to-right fold with a right-to-left fold over the
terms. -/
def aggregate_inputs_foldr (c : Curve G1p G1a G2p G2a GT)
    (prep_vk : PreparedVk G1a G2a GT) (public_inputs : List Fr) : Option G1p :=
  if public_inputs.length + 1 ≠ prep_vk.gamma_abc_g1.length then
    (prep_vk.gamma_abc_g1[0]?).map (fun p => c.g1Aff.symm p)
  else
    (prep_vk.gamma_abc_g1[0]?).map (fun p0 =>
      (c.g1Aff.symm p0 ::
          (public_inputs.zip (prep_vk.gamma_abc_g1.drop 1)).map
            (fun sp => c.g1Aff.symm (sp.1 • sp.2))).foldr
        (fun t acc => t + acc) 0)

end Engine

/-- A concrete instantiation of the substrate used to evaluate the engine on
explicit inputs: every group is `ℤ` (additively), the target group is `ℤ`
under multiplication, the affine/projective conversions are the identity and
the pairing is integer multiplication. -/
def curveEx : Curve ℤ ℤ ℤ ℤ ℤ :=
  { g1Aff := AddEquiv.refl ℤ
    g2Aff := AddEquiv.refl ℤ
    pairing := fun a b => a * b }

/-- A concrete prepared key with a single `ic` element, used to exercise the
length-mismatch path. -/
def pvkMismatch : PreparedVk ℤ ℤ ℤ :=
  { alpha_g1 := 1
    beta_g2 := 1
    gamma_g2_neg := -1
    delta_g2_neg := -1
    gamma_abc_g1 := [5]
    e_alpha_beta := 1 }

/-- A concrete prepared key with `ic = [2, 3]` whose `e_alpha_beta` makes the
pairing equation hold for `proofEx` and input `[4]`. -/
def pvkOk : PreparedVk ℤ ℤ ℤ :=
  { alpha_g1 := 1
    beta_g2 := 1
    gamma_g2_neg := -1
    delta_g2_neg := -1
    gamma_abc_g1 := [2, 3]
    e_alpha_beta := 14 }

/-- A concrete prepared key whose second `ic` entry is the group identity
(the affine image of an imported point at infinity). -/
def pvkInf : PreparedVk ℤ ℤ ℤ :=
  { alpha_g1 := 1
    beta_g2 := 1
    gamma_g2_neg := -1
    delta_g2_neg := -1
    gamma_abc_g1 := [2, 0]
    e_alpha_beta := 1 }

/-- A concrete prepared key with an empty `ic` sequence, on which the Rust
index `gamma_abc_g1[0]` is out of bounds. -/
def pvkNil : PreparedVk ℤ ℤ ℤ :=
  { alpha_g1 := 1
    beta_g2 := 1
    gamma_g2_neg := -1
    delta_g2_neg := -1
    gamma_abc_g1 := []
    e_alpha_beta := 1 }

/-- A concrete proof. -/
def proofEx : Proof ℤ ℤ :=
  { a := 1, b := 1, c := 1 }

/-- A concrete raw verification key. -/
def vkEx : Vk ℤ ℤ :=
  { alpha_g1 := 2
    beta_g2 := 3
    gamma_g2 := 4
    delta_g2 := 5
    ic := [2, 3] }

end Groth16

namespace Converter

/-- The Rust code text emitted by `g1_to_rust` for an affine point. -/
def g1AffineCode (x y : String) : String :=
  "G1Affine::new(\n      Fq::from_str(\"" ++ x ++
    "\").unwrap(),\n      Fq::from_str(\"" ++ y ++
    "\").unwrap(),\n      false\n    ).into()"

/-- `g1_to_rust` of `circom/converter/src/main.rs`: a snarkjs G1 point is
`[x, y, z]`; if it has at least three coordinates and `z == "0"` it is the
point at infinity, otherwise the affine point `(x, y)` (the Rust `format!`
indexes `p[0]` and `p[1]`, panicking — modelled as `none` — when absent). -/
def g1_to_rust (p : List String) : Option String :=
  if 3 ≤ p.length ∧ p[2]? = some "0" then
    some "G1Projective::zero()"
  else
    match p[0]?, p[1]? with
    | some x, some y => some (g1AffineCode x y)
    | _, _ => none

/-- The Rust code text emitted by `g2_to_rust` for an affine point. -/
def g2AffineCode (x0 x1 y0 y1 : String) : String :=
  "G2Affine::new(\n      Fq2::new(\n        Fq::from_str(\"" ++ x0 ++
    "\").unwrap(),\n        Fq::from_str(\"" ++ x1 ++
    "\").unwrap()\n      ),\n      Fq2::new(\n        Fq::from_str(\"" ++ y0 ++
    "\").unwrap(),\n        Fq::from_str(\"" ++ y1 ++
    "\").unwrap()\n      ),\n      false\n    ).into()"

/-- The infinity test of `g2_to_rust`:
`p.len() >= 3 && p[2][0] == "0" && p[2][1] == "0"`, short-circuiting; the
inner indexings `p[2][0]` / `p[2][1]` panic (`none`) when `p[2]` is too
short. -/
def g2_infinity_check (p : List (List String)) : Option Bool :=
  if 3 ≤ p.length then
    match (p.getD 2 [])[0]? with
    | none => none
    | some z0 =>
      if z0 = "0" then
        match (p.getD 2 [])[1]? with
        | none => none
        | some z1 => some (z1 = "0")
      else some false
  else some false

/-- `g2_to_rust` of `circom/converter/src/main.rs`: a snarkjs G2 point is
`[[x_c0, x_c1], [y_c0, y_c1], [z_c0, z_c1]]`; `z == ["0","0"]` denotes the
point at infinity, otherwise the affine point with the given coordinate
pairs (the `format!` indexes `p[0][0]`, `p[0][1]`, `p[1][0]`, `p[1][1]`). -/
def g2_to_rust (p : List (List String)) : Option String :=
  match g2_infinity_check p with
  | none => none
  | some true => some "G2Projective::zero()"
  | some false =>
    match p[0]?, p[1]? with
    | some xs, some ys =>
      match xs[0]?, xs[1]?, ys[0]?, ys[1]? with
      | some x0, some x1, some y0, some y1 => some (g2AffineCode x0 x1 y0 y1)
      | _, _, _, _ => none
    | _, _ => none

end Converter

namespace Groth16

section Lemmas

variable {G1p G1a G2p G2a GT Fr : Type}
variable [AddCommGroup G1p] [AddCommGroup G1a] [AddCommGroup G2p] [AddCommGroup G2a]
variable [CommMonoid GT] [Semiring Fr] [Module Fr G1a]

/-- Folding `acc + F x` from `init` over a list adds the sum of the mapped
list to `init`. -/
theorem foldl_add_map_sum {α M : Type} [AddCommMonoid M] (F : α → M) :
    ∀ (l : List α) (init : M),
      l.foldl (fun acc x => acc + F x) init = init + (l.map F).sum
  | [], _ => by simp
  | a :: l, init => by
    simp only [List.foldl_cons, List.map_cons, List.sum_cons]
    rw [foldl_add_map_sum F l (init + F a), add_assoc]

/-- Right fold of addition from `0` is the list sum. -/
theorem foldr_add_zero {M : Type} [AddCommMonoid M] :
    ∀ l : List M, l.foldr (fun t acc => t + acc) 0 = l.sum
  | [] => by simp
  | a :: l => by
    simp only [List.foldr_cons, List.sum_cons]
    rw [foldr_add_zero l]

/-- The sum of a mapped zip of equal-length lists, as a sum over indices. -/
theorem zip_map_sum_range {α β M : Type} [Zero α] [Zero β] [AddCommMonoid M]
    (F : α × β → M) :
    ∀ (l1 : List α) (l2 : List β), l1.length = l2.length →
      ((l1.zip l2).map F).sum =
        ∑ i ∈ Finset.range l1.length, F (l1.getD i 0, l2.getD i 0)
  | [], _, _ => by simp
  | _ :: _, [], h => by simp at h
  | a :: l1, b :: l2, h => by
    simp only [List.zip_cons_cons, List.map_cons, List.sum_cons, List.length_cons]
    rw [Finset.sum_range_succ']
    simp only [List.getD_cons_succ, List.getD_cons_zero]
    rw [zip_map_sum_range F l1 l2 (by simpa using h)]
    exact add_comm _ _

/-- When the length precondition holds, `aggregate_inputs` computes
`ic[0] + ∑ i, inputs[i] • ic[i+1]` (carried back to projective form). -/
theorem aggregate_eq_sum (c : Curve G1p G1a G2p G2a GT)
    (pvk : PreparedVk G1a G2a GT) (inputs : List Fr)
    (h : inputs.length + 1 = pvk.gamma_abc_g1.length) :
    aggregate_inputs c pvk inputs =
      some (c.g1Aff.symm (pvk.gamma_abc_g1.getD 0 0) +
        ∑ i ∈ Finset.range inputs.length,
          c.g1Aff.symm (inputs.getD i 0 • pvk.gamma_abc_g1.getD (i + 1) 0)) := by
  rcases hic : pvk.gamma_abc_g1 with _ | ⟨p0, rest⟩
  · rw [hic] at h; simp at h
  · have hlen : inputs.length = rest.length := by
      rw [hic] at h; simpa using h
    unfold aggregate_inputs
    rw [hic]
    rw [if_neg (by simp only [List.length_cons]; omega)]
    simp only [List.getElem?_cons_zero, Option.map_some', List.drop_succ_cons,
      List.drop_zero, List.getD_cons_zero, List.getD_cons_succ, Option.some.injEq]
    have h1 := foldl_add_map_sum
      (fun sp : Fr × G1a => c.g1Aff.symm (sp.1 • sp.2))
      (inputs.zip rest) (c.g1Aff.symm p0)
    have h2 := zip_map_sum_range
      (fun sp : Fr × G1a => c.g1Aff.symm (sp.1 • sp.2)) inputs rest hlen
    exact h1.trans (congrArg (fun t => c.g1Aff.symm p0 + t) h2)

end Lemmas

end Groth16

namespace Groth16

section Claims

variable {G1p G1a G2p G2a GT Fr : Type}
variable [AddCommGroup G1p] [AddCommGroup G1a] [AddCommGroup G2p] [AddCommGroup G2a]
variable [CommMonoid GT] [Semiring Fr] [Module Fr G1a]

/-- Claim C1: the spec demands that a public-input count mismatch yield a
`PublicInputCountMismatch` error before any pairing computation.  The code
instead silently substitutes `gamma_abc_g1[0]` as the aggregate (its comment
even claims to return the identity element) and proceeds to the full pairing
check, returning a verdict of the ordinary `Ok`/`Err` kind: on a key with
`ic = [5]` and one public input (`1 + 1 ≠ 1`), aggregation returns `ic[0]`
and verification still runs the pairing equation. -/
theorem mismatch_substitutes_first_ic_and_still_pairs :
    ([(3 : ℤ)].length + 1 ≠ pvkMismatch.gamma_abc_g1.length) ∧
    aggregate_inputs curveEx pvkMismatch [(3 : ℤ)] = some 5 ∧
    verify_proof_prepared curveEx pvkMismatch proofEx [(3 : ℤ)] =
      some (Except.error ()) :=
  ⟨by decide, rfl, rfl⟩

/-- Claim C2: with a matching-length public-input sequence,
`verify_proof_prepared` returns `Ok(())` iff the target-group product
`e(a,b) · e(g_ic, gamma_neg) · e(c, delta_neg)` equals the precomputed
`e_alpha_beta` exactly, where `g_ic` is the aggregated public-input point;
otherwise it returns the `Err` verdict. -/
theorem verify_prepared_ok_iff_pairing_product_eq [DecidableEq GT]
    (c : Curve G1p G1a G2p G2a GT) (pvk : PreparedVk G1a G2a GT)
    (proof : Proof G1p G2p) (inputs : List Fr)
    (h : inputs.length + 1 = pvk.gamma_abc_g1.length) :
    ∃ g_ic, aggregate_inputs c pvk inputs = some g_ic ∧
      (verify_proof_prepared c pvk proof inputs = some (Except.ok ()) ↔
        c.pairing (c.g1Aff proof.a) (c.g2Aff proof.b) *
            c.pairing (c.g1Aff g_ic) pvk.gamma_g2_neg *
            c.pairing (c.g1Aff proof.c) pvk.delta_g2_neg = pvk.e_alpha_beta) ∧
      (verify_proof_prepared c pvk proof inputs = some (Except.error ()) ↔
        ¬ (c.pairing (c.g1Aff proof.a) (c.g2Aff proof.b) *
            c.pairing (c.g1Aff g_ic) pvk.gamma_g2_neg *
            c.pairing (c.g1Aff proof.c) pvk.delta_g2_neg = pvk.e_alpha_beta)) := by
  refine ⟨_, aggregate_eq_sum c pvk inputs h, ?_, ?_⟩
  · unfold verify_proof_prepared
    rw [aggregate_eq_sum c pvk inputs h]
    simp only [Option.map_some', Option.some.injEq]
    split_ifs with hc
    · exact iff_of_true rfl hc
    · exact iff_of_false (by simp) hc
  · unfold verify_proof_prepared
    rw [aggregate_eq_sum c pvk inputs h]
    simp only [Option.map_some', Option.some.injEq]
    split_ifs with hc
    · exact iff_of_false (by simp) (fun hn => hn hc)
    · exact iff_of_true rfl hc

/-- Claim C2 witness: a concrete matching-length instance. -/
theorem verify_prepared_ok_iff_pairing_product_eq_witness :
    ([(4 : ℤ)].length + 1 = pvkOk.gamma_abc_g1.length) ∧
    ∃ g_ic, aggregate_inputs curveEx pvkOk [(4 : ℤ)] = some g_ic ∧
      (verify_proof_prepared curveEx pvkOk proofEx [(4 : ℤ)] =
          some (Except.ok ()) ↔
        curveEx.pairing (curveEx.g1Aff proofEx.a) (curveEx.g2Aff proofEx.b) *
            curveEx.pairing (curveEx.g1Aff g_ic) pvkOk.gamma_g2_neg *
            curveEx.pairing (curveEx.g1Aff proofEx.c) pvkOk.delta_g2_neg =
          pvkOk.e_alpha_beta) ∧
      (verify_proof_prepared curveEx pvkOk proofEx [(4 : ℤ)] =
          some (Except.error ()) ↔
        ¬ (curveEx.pairing (curveEx.g1Aff proofEx.a) (curveEx.g2Aff proofEx.b) *
            curveEx.pairing (curveEx.g1Aff g_ic) pvkOk.gamma_g2_neg *
            curveEx.pairing (curveEx.g1Aff proofEx.c) pvkOk.delta_g2_neg =
          pvkOk.e_alpha_beta)) :=
  ⟨rfl, verify_prepared_ok_iff_pairing_product_eq curveEx pvkOk proofEx
    [(4 : ℤ)] rfl⟩

/-- Claim C3: with a matching-length input sequence the aggregator returns
`ic[0] + ∑ i ∈ 0..n, inputs[i] • ic[i+1]`, pairing `inputs[i]` with
`ic[i+1]`. -/
theorem aggregate_inputs_is_ic0_add_weighted_sum (c : Curve G1p G1a G2p G2a GT)
    (pvk : PreparedVk G1a G2a GT) (inputs : List Fr)
    (h : inputs.length + 1 = pvk.gamma_abc_g1.length) :
    aggregate_inputs c pvk inputs =
      some (c.g1Aff.symm (pvk.gamma_abc_g1.getD 0 0) +
        ∑ i ∈ Finset.range inputs.length,
          c.g1Aff.symm (inputs.getD i 0 • pvk.gamma_abc_g1.getD (i + 1) 0)) :=
  aggregate_eq_sum c pvk inputs h

/-- Claim C3 witness: `ic = [2, 3]`, `inputs = [4]`. -/
theorem aggregate_inputs_is_ic0_add_weighted_sum_witness :
    ([(4 : ℤ)].length + 1 = pvkOk.gamma_abc_g1.length) ∧
    aggregate_inputs curveEx pvkOk [(4 : ℤ)] =
      some (curveEx.g1Aff.symm (pvkOk.gamma_abc_g1.getD 0 0) +
        ∑ i ∈ Finset.range [(4 : ℤ)].length,
          curveEx.g1Aff.symm ([(4 : ℤ)].getD i 0 •
            pvkOk.gamma_abc_g1.getD (i + 1) 0)) :=
  ⟨rfl, aggregate_inputs_is_ic0_add_weighted_sum curveEx pvkOk [(4 : ℤ)] rfl⟩

/-- Claim C4: `prepare` negates the affine `gamma` and `delta` and
precomputes `e(alpha_affine, beta_affine)`. -/
theorem prepare_negates_gamma_delta_and_pairs_alpha_beta
    (c : Curve G1p G1a G2p G2a GT) (vk : Vk G1p G2p) :
    (Vk.prepare c vk).gamma_g2_neg = -(c.g2Aff vk.gamma_g2) ∧
    (Vk.prepare c vk).delta_g2_neg = -(c.g2Aff vk.delta_g2) ∧
    (Vk.prepare c vk).e_alpha_beta =
      c.pairing (c.g1Aff vk.alpha_g1) (c.g2Aff vk.beta_g2) :=
  ⟨rfl, rfl, rfl⟩

/-- Claim C5: an `ic` entry that is the group identity (an imported point at
infinity) contributes nothing: the aggregate equals the sum of the remaining
terms, that entry's index removed. -/
theorem aggregate_infinity_entry_contributes_identity
    (c : Curve G1p G1a G2p G2a GT) (pvk : PreparedVk G1a G2a GT)
    (inputs : List Fr) (j : ℕ)
    (h : inputs.length + 1 = pvk.gamma_abc_g1.length)
    (_hj : j < inputs.length)
    (hzero : pvk.gamma_abc_g1.getD (j + 1) 0 = 0) :
    aggregate_inputs c pvk inputs =
      some (c.g1Aff.symm (pvk.gamma_abc_g1.getD 0 0) +
        ∑ i ∈ (Finset.range inputs.length).erase j,
          c.g1Aff.symm (inputs.getD i 0 • pvk.gamma_abc_g1.getD (i + 1) 0)) := by
  rw [aggregate_eq_sum c pvk inputs h]
  have hterm :
      c.g1Aff.symm (inputs.getD j 0 • pvk.gamma_abc_g1.getD (j + 1) 0) = 0 := by
    rw [hzero, smul_zero, map_zero]
  rw [Finset.sum_erase (Finset.range inputs.length) hterm]

/-- Claim C5 witness: `ic = [2, 0]` (second entry the identity),
`inputs = [3]`. -/
theorem aggregate_infinity_entry_contributes_identity_witness :
    ([(3 : ℤ)].length + 1 = pvkInf.gamma_abc_g1.length) ∧
    (0 < [(3 : ℤ)].length) ∧
    (pvkInf.gamma_abc_g1.getD (0 + 1) 0 = 0) ∧
    aggregate_inputs curveEx pvkInf [(3 : ℤ)] =
      some (curveEx.g1Aff.symm (pvkInf.gamma_abc_g1.getD 0 0) +
        ∑ i ∈ (Finset.range [(3 : ℤ)].length).erase 0,
          curveEx.g1Aff.symm ([(3 : ℤ)].getD i 0 •
            pvkInf.gamma_abc_g1.getD (i + 1) 0)) :=
  ⟨rfl, by decide, rfl,
    aggregate_infinity_entry_contributes_identity curveEx pvkInf [(3 : ℤ)] 0
      rfl (by decide) rfl⟩

/-- Claim C6: the right-to-left fold over the terms
`ic[0], inputs[0] • ic[1], …, inputs[n-1] • ic[n]` agrees with the
left-to-right fold the implementation uses, on every input (group addition
is commutative and associative). -/
theorem aggregate_foldr_eq_foldl (c : Curve G1p G1a G2p G2a GT)
    (pvk : PreparedVk G1a G2a GT) (inputs : List Fr) :
    aggregate_inputs_foldr c pvk inputs = aggregate_inputs c pvk inputs := by
  unfold aggregate_inputs aggregate_inputs_foldr
  split_ifs with hc
  · rfl
  · rcases hic : pvk.gamma_abc_g1 with _ | ⟨p0, rest⟩
    · rfl
    · simp only [List.getElem?_cons_zero, Option.map_some', Option.some.injEq,
        List.drop_succ_cons, List.drop_zero, List.foldr_cons]
      rw [foldr_add_zero]
      exact (foldl_add_map_sum
        (fun sp : Fr × G1a => c.g1Aff.symm (sp.1 • sp.2))
        (inputs.zip rest) (c.g1Aff.symm p0)).symm

/-- Claim C8: `prepare` is a pure, deterministic function: applied twice to
the same verification key it yields identical prepared keys. -/
theorem prepare_idempotent_bit_identical (c : Curve G1p G1a G2p G2a GT)
    (vk : Vk G1p G2p) : Vk.prepare c vk = Vk.prepare c vk := rfl

/-- Claim C9: `aggregate_inputs` indexes `gamma_abc_g1[0]` on both branches,
so with a non-empty `ic` sequence aggregation and verification are total
(no panic, modelled as `isSome`), while with an empty `ic` sequence the
index is out of bounds (modelled as `none`) for every input sequence. -/
theorem aggregate_total_iff_ic_nonempty [DecidableEq GT]
    (c : Curve G1p G1a G2p G2a GT) (pvk : PreparedVk G1a G2a GT)
    (proof : Proof G1p G2p) (inputs : List Fr) :
    (pvk.gamma_abc_g1 ≠ [] →
      (aggregate_inputs c pvk inputs).isSome ∧
      (verify_proof_prepared c pvk proof inputs).isSome) ∧
    (pvk.gamma_abc_g1 = [] →
      aggregate_inputs c pvk inputs = none ∧
      verify_proof_prepared c pvk proof inputs = none) := by
  constructor
  · intro hne
    have hagg : (aggregate_inputs c pvk inputs).isSome := by
      rcases hic : pvk.gamma_abc_g1 with _ | ⟨p0, rest⟩
      · exact absurd hic hne
      · unfold aggregate_inputs
        rw [hic]
        split_ifs <;> simp
    refine ⟨hagg, ?_⟩
    rcases Option.isSome_iff_exists.mp hagg with ⟨g, hg⟩
    unfold verify_proof_prepared
    rw [hg]
    rfl
  · intro hnil
    have ha : aggregate_inputs c pvk inputs = none := by
      unfold aggregate_inputs
      rw [hnil]
      split_ifs <;> rfl
    refine ⟨ha, ?_⟩
    unfold verify_proof_prepared
    rw [ha]
    rfl

/-- Claim C9 witness: a one-element `ic` is total; an empty `ic` is the
out-of-bounds panic. -/
theorem aggregate_total_iff_ic_nonempty_witness :
    (pvkMismatch.gamma_abc_g1 ≠ [] ∧
      (aggregate_inputs curveEx pvkMismatch ([] : List ℤ)).isSome) ∧
    (pvkNil.gamma_abc_g1 = [] ∧
      aggregate_inputs curveEx pvkNil ([] : List ℤ) = none) :=
  ⟨⟨by decide,
      ((aggregate_total_iff_ic_nonempty curveEx pvkMismatch proofEx
        ([] : List ℤ)).1 (by decide)).1⟩,
   ⟨rfl,
      ((aggregate_total_iff_ic_nonempty curveEx pvkNil proofEx
        ([] : List ℤ)).2 rfl).1⟩⟩

/-- Claim C10: the one-shot entry point equals preparing the key and calling
the prepared entry point. -/
theorem verify_proof_refines_prepared [DecidableEq GT]
    (c : Curve G1p G1a G2p G2a GT) (vk : Vk G1p G2p) (proof : Proof G1p G2p)
    (inputs : List Fr) :
    verify_proof c vk proof inputs =
      verify_proof_prepared c (Vk.prepare c vk) proof inputs := rfl

end Claims

end Groth16

namespace Converter

/-- Claim C7: the importer treats the third coordinate `z` purely as a
sentinel: a G1 point `[x, y, z]` with `z = "0"` (resp. a G2 point with
`z = ["0","0"]`) decodes to the point at infinity, and any other `z`
decodes to the affine point with the given coordinates, `z` otherwise
ignored. -/
theorem z_sentinel_decoding :
    (∀ x y z : String, g1_to_rust [x, y, z] =
        some (if z = "0" then "G1Projective::zero()" else g1AffineCode x y)) ∧
    (∀ x0 x1 y0 y1 z0 z1 : String,
      g2_to_rust [[x0, x1], [y0, y1], [z0, z1]] =
        some (if z0 = "0" ∧ z1 = "0" then "G2Projective::zero()"
          else g2AffineCode x0 x1 y0 y1)) := by
  constructor
  · intro x y z
    by_cases hz : z = "0" <;>
      simp [g1_to_rust, hz]
  · intro x0 x1 y0 y1 z0 z1
    by_cases h0 : z0 = "0" <;> by_cases h1 : z1 = "0" <;>
      simp [g2_to_rust, g2_infinity_check, h0, h1]

end Converter
